import Mathlib

/-!
A shallow embedding of clink's `host_backend.cpp`.

Source: `src/clink/app/src/host/host_backend.cpp`.

Conventions of the embedding.

* A `char` is a `Char`, and a NUL-terminated C string (`char*`) is the list of
  its characters before the terminating NUL, so `while (*read)` is the
  recursion over that list and `strlen` is `List.length`.
* `int setting` is an `Int`; offsets into the line (`unsigned int cursor`,
  `int* left`, `int* right`) are `Nat`: no arithmetic on them can leave the
  range of the line length.
* The setting `g_paste_crlf` is read once per call and is passed as an argument.
* `strip_crlf` works in place; `strip_crlf_mem` follows it store by store on the
  memory of the buffer, and `strip_crlf_mem_c_str` shows that the string it
  leaves is `strip_crlf` of the string it found.
* The collaborators whose headers are not among the sources (`line_buffer`,
  `editor_backend::result`, the terminal) record the calls they receive; the
  calls of the operating system and of `core/path.h` are arguments of the
  handlers that make them, gathered in `host_os` for `on_input`.
* The length of a line is an `unsigned int`, so at most `all_ones`: the
  handlers that pass `~0u` as the end of a range state it as a hypothesis.
-/

namespace HostBackend

/-! ## strip_crlf (lines 58-87) -/

/-- The loop `while (*read) { ... ++read; }` of `strip_crlf`.  The first
argument is `setting`, the second the flag `prev_was_crlf`, the third the
characters from `read` on; the result is the characters stored through
`write`, in order.  `write` never overtakes `read`, so the stores do not
change a character that is still to be read. -/
def strip_crlf_loop (setting : Int) : Bool → List Char → List Char
  | _, [] => []
  | prev_was_crlf, c :: read =>
    if c ≠ '\n' ∧ c ≠ '\r' then
      c :: strip_crlf_loop setting false read
    else if setting > 1 ∧ prev_was_crlf = false then
      ' ' :: strip_crlf_loop setting true read
    else
      strip_crlf_loop setting prev_was_crlf read

/-- The function `strip_crlf(char* line)`, with the value of
`g_paste_crlf.get()` as its first argument: the string held by `line` after
the call. -/
def strip_crlf (setting : Int) (line : List Char) : List Char :=
  if setting ≤ 0 then line
  else strip_crlf_loop setting false line

/-! ## strip_crlf on the memory of the buffer -/

/-- The string held by a character buffer: its characters before the first
NUL. -/
def c_str (mem : List Char) : List Char := mem.takeWhile (fun c => c != Char.ofNat 0)

/-- The loop of `strip_crlf` store by store, on the memory `mem` that `line`
points to, with `read` and `write` as offsets into it; the first argument is
`mem.length - read`, the number of characters that can still be read.  The
result is the memory after `*write = 0`. -/
def strip_crlf_mem_loop (setting : Int) :
    Nat → List Char → Nat → Nat → Bool → List Char
  | 0, mem, _, write, _ => mem.set write (Char.ofNat 0)
  | left + 1, mem, read, write, prev_was_crlf =>
    let c := mem.getD read (Char.ofNat 0)
    if c = Char.ofNat 0 then mem.set write (Char.ofNat 0)
    else if c ≠ '\n' ∧ c ≠ '\r' then
      strip_crlf_mem_loop setting left (mem.set write c) (read + 1) (write + 1) false
    else if setting > 1 ∧ prev_was_crlf = false then
      strip_crlf_mem_loop setting left (mem.set write ' ') (read + 1) (write + 1) true
    else
      strip_crlf_mem_loop setting left mem (read + 1) write prev_was_crlf

/-- The function `strip_crlf(char* line)` on the memory of the buffer. -/
def strip_crlf_mem (setting : Int) (mem : List Char) : List Char :=
  if setting ≤ 0 then mem
  else strip_crlf_mem_loop setting mem.length mem 0 0 false

/-- The words of the specification for the policy `space`: a character is a
newline character when it is a line feed or a carriage return. -/
def is_crlf (c : Char) : Bool := c == '\n' || c == '\r'

/-- The words of the specification for the policy `space`, not the code: the
line is cut into its maximal runs of characters that are all newline
characters or all other characters, each run of newline characters is replaced
by exactly one space, and every other run is copied. -/
def replace_crlf_runs (line : List Char) : List Char :=
  ((line.splitBy (fun a b => is_crlf a == is_crlf b)).map
    (fun run => if run.all is_crlf then [' '] else run)).flatten

/-! ## The line buffer (`lib/line_buffer.h`, a collaborator) -/

/-- A call received by a line buffer. -/
inductive buffer_op where
  | begin_undo_group
  | end_undo_group
  | remove (start finish : Nat)
  | set_cursor (pos : Nat)
  | insert (text : List Char)
  deriving DecidableEq, Repr

/-- Modelled from the spec: the class `line_buffer` of `lib/line_buffer.h`,
which is not among the sources.  The specification gives its contract:
"mutable text plus a cursor offset", with the operations read full text, read
cursor, remove a half-open character range, set cursor, insert text at cursor,
begin and end an undo group.  `ops` records the calls received, oldest first. -/
structure line_buffer where
  text : List Char
  cursor : Nat
  ops : List buffer_op
  deriving DecidableEq, Repr

namespace line_buffer

/-- Modelled from the spec: `get_buffer()`, "read full text". -/
def get_buffer (b : line_buffer) : List Char := b.text

/-- Modelled from the spec: `get_cursor()`, "read cursor". -/
def get_cursor (b : line_buffer) : Nat := b.cursor

/-- Modelled from the spec: `get_length()`, the length of the text. -/
def get_length (b : line_buffer) : Nat := b.text.length

/-- Modelled from the spec: `begin_undo_group()`; only the call is recorded. -/
def begin_undo_group (b : line_buffer) : line_buffer :=
  { b with ops := b.ops ++ [buffer_op.begin_undo_group] }

/-- Modelled from the spec: `end_undo_group()`; only the call is recorded. -/
def end_undo_group (b : line_buffer) : line_buffer :=
  { b with ops := b.ops ++ [buffer_op.end_undo_group] }

/-- Modelled from the spec: `remove(start, finish)` removes the characters of
the half-open range `[start, finish)`, a `finish` past the end of the text
meaning the end of the text; the cursor is kept inside the text. -/
def remove (b : line_buffer) (start finish : Nat) : line_buffer :=
  let text := b.text.take start ++ b.text.drop (max start finish)
  { text := text
    cursor := min b.cursor text.length
    ops := b.ops ++ [buffer_op.remove start finish] }

/-- Modelled from the spec: `set_cursor(pos)` moves the cursor to `pos`, kept
inside the text. -/
def set_cursor (b : line_buffer) (pos : Nat) : line_buffer :=
  { b with
    cursor := min pos b.text.length
    ops := b.ops ++ [buffer_op.set_cursor pos] }

/-- Modelled from the spec: `insert(text)` inserts the string at the cursor,
which ends after the inserted string. -/
def insert (b : line_buffer) (text : List Char) : line_buffer :=
  { text := b.text.take b.cursor ++ text ++ b.text.drop b.cursor
    cursor := min b.cursor b.text.length + text.length
    ops := b.ops ++ [buffer_op.insert text] }

end line_buffer

/-! ## get_word_bounds (lines 158-189) -/

/-- The double-quote character, code 34. -/
def dquote : Char := Char.ofNat 34

/-- The character `str[i]` of a C string: the terminating NUL at the index
`strlen(str)` (and, in this model, after it). -/
def char_at (str : List Char) (i : Nat) : Char := str.getD i (Char.ofNat 0)

/-- The loop `for (int i = cursor - 1; i >= 0; --i)` of `get_word_bounds`
with `*left = 0` before it: the argument is `i + 1`, the result is `*left`. -/
def scan_left (str : List Char) (delim : Char) : Nat → Nat
  | 0 => 0
  | i + 1 => if char_at str i = delim then i + 1 else scan_left str delim i

/-- The library call `strchr(s, c)` for a `c` other than NUL: the offset of
the first `c` in `s`, `none` for the null pointer. -/
def strchr : List Char → Char → Option Nat
  | [], _ => none
  | x :: s, c => if x = c then some 0 else (strchr s c).map (· + 1)

/-- The function `get_word_bounds(buffer, &left, &right)`: the pair
`(*left, *right)`. -/
def get_word_bounds (buffer : line_buffer) : Nat × Nat :=
  let str := buffer.get_buffer
  let cursor := buffer.get_cursor
  let count := (List.range cursor).foldl
    (fun delim i => delim + (if char_at str i = dquote then 1 else 0)) 0
  let delim := if count % 2 = 1 then dquote else ' '
  let left := scan_left str delim cursor
  let right :=
    match strchr (str.drop cursor) delim with
    | some post => cursor + post
    | none => str.length
  (left, right)

/-! ## expand_env_vars (lines 192-213) -/

/-- Modelled from the spec: the string class `str<1024>` of `core/str.h`, which
is not among the sources, as `expand_env_vars` uses it for `in`: `in << p`
appends the C string `p` to `in`. -/
def str_concat (s p : List Char) : List Char := s ++ p

/-- Modelled from the spec: `truncate(n)` of the string class keeps the first
`n` characters ("Extract that substring"). -/
def str_truncate (s : List Char) (n : Nat) : List Char := s.take n

/-- The string `in` that `expand_env_vars` hands to the operating system. -/
def expand_env_vars_in (buffer : line_buffer) : List Char :=
  let (word_left, word_right) := get_word_bounds buffer
  str_truncate (str_concat [] (buffer.get_buffer.drop word_left)) (word_right - word_left)

/-- The function `expand_env_vars(buffer)`.  The first argument is the
operating system call `ExpandEnvironmentStrings(src, dst, size)`: from the
source string and the size of the destination it gives the count it returns
(0 when it fails) and the string found in the destination afterwards. -/
def expand_env_vars (ExpandEnvironmentStrings : List Char → Nat → Nat × List Char)
    (buffer : line_buffer) : line_buffer :=
  let (word_left, word_right) := get_word_bounds buffer
  let (count, out) := ExpandEnvironmentStrings (expand_env_vars_in buffer) 1024
  if count = 0 then buffer
  else
    let buffer := buffer.begin_undo_group
    let buffer := buffer.remove word_left word_right
    let buffer := buffer.set_cursor word_left
    let buffer := buffer.insert out
    buffer.end_undo_group

/-! ## Words of the specification on word bounds -/

/-- The words of the specification, not the code: the delimiter is the
double-quote when the number of double-quotes strictly before the cursor is
odd, and the space otherwise. -/
def active_delimiter (text : List Char) (cursor : Nat) : Char :=
  if (text.take cursor).count dquote % 2 = 1 then dquote else ' '

/-- The words of the specification, not the code: `q` is the index of the last
`d` before the cursor. -/
def last_before (text : List Char) (d : Char) (cursor q : Nat) : Prop :=
  q < cursor ∧ text[q]? = some d ∧ ∀ j : Nat, q < j → j < cursor → text[j]? ≠ some d

/-- The words of the specification, not the code: `r` is the index of the first
`d` at or after the cursor, or the length of the text when there is none. -/
def first_from (text : List Char) (d : Char) (cursor r : Nat) : Prop :=
  cursor ≤ r ∧ (∀ j : Nat, cursor ≤ j → j < r → text[j]? ≠ some d)
    ∧ (text[r]? = some d ∨ r = text.length)

/-- The line `cd "my dir"` of the specification's example. -/
def text_cd_my_dir : List Char := "cd ".toList ++ [dquote] ++ "my dir".toList ++ [dquote]

/-- The line `echo %PATH% rest` of the specification's example. -/
def text_echo_path : List Char := "echo %PATH% rest".toList

/-- An expansion call for the examples, in an environment whose only variable
is `PATH`, of value `bin`: the count returned includes the terminating NUL. -/
def expand_path_only (src : List Char) (_size : Nat) : Nat × List Char :=
  if src = "%PATH%".toList then (4, "bin".toList) else (src.length + 1, src)

/-! ## The result, the terminal and the clipboard (collaborators) -/

/-- A call received by the result of an action. -/
inductive result_call where
  | redraw
  | done
  deriving DecidableEq, Repr

/-- Modelled from the spec: the class `editor_backend::result`, which is not
among the sources, the "result signal sink" with its two calls `redraw()` and
`done()`.  `calls` records the calls received, oldest first. -/
structure result where
  calls : List result_call
  deriving DecidableEq, Repr

namespace result

/-- Modelled from the spec: `redraw()`, the signal "request-redraw". -/
def redraw (r : result) : result := { calls := r.calls ++ [result_call.redraw] }

/-- Modelled from the spec: `done()`, the signal "mark-done". -/
def done (r : result) : result := { calls := r.calls ++ [result_call.done] }

end result

/-- Modelled from the spec: the terminal of `terminal/terminal.h`, which is not
among the sources, the "terminal sink" with its call `write(bytes, length)`.
`written` records the byte strings written, oldest first. -/
structure terminal where
  written : List (List Char)
  deriving DecidableEq, Repr

namespace terminal

/-- Modelled from the spec: `write(bytes, length)` writes the first `length`
bytes of `bytes`. -/
def write (t : terminal) (bytes : List Char) (length : Nat) : terminal :=
  { written := t.written ++ [bytes.take length] }

end terminal

/-- Modelled from the spec: the structure `editor_backend::context`, which is
not among the sources; the handlers use its members `buffer` and `terminal`. -/
structure context where
  buffer : line_buffer
  terminal : terminal
  deriving DecidableEq, Repr

/-- A call `SetClipboardData(format, data)` received by the system clipboard,
with the text that `data` holds, `none` for the null pointer. -/
inductive clipboard_call where
  | CF_TEXT (data : Option (List Char))
  | CF_UNICODETEXT (data : Option (List Char))
  deriving DecidableEq, Repr

/-- The value `~0u` of a 32-bit `unsigned int`. -/
def all_ones : Nat := 4294967295

/-- The backslash character, code 92. -/
def backslash : Char := Char.ofNat 92

/-! ## ctrl_c (lines 31-39) -/

/-- The function `ctrl_c(result, context)`: the result and the context after
the call. -/
def ctrl_c (result : HostBackend.result) (context : HostBackend.context) :
    HostBackend.result × HostBackend.context :=
  let buffer := context.buffer.remove 0 all_ones
  let terminal := context.terminal.write ['\n', '^', 'C', '\n'] 4
  (result.redraw, { buffer := buffer, terminal := terminal })

/-! ## paste (lines 90-106) -/

/-- The function `paste(buffer)`.  `setting` is the value of
`g_paste_crlf.get()`, `OpenClipboard` tells whether `OpenClipboard(nullptr)`
succeeds, and `clip_data` is the text that `to_utf8` leaves in `utf8` from
`GetClipboardData(CF_UNICODETEXT)`, `none` when that is the null pointer. -/
def paste (setting : Int) (OpenClipboard : Bool) (clip_data : Option (List Char))
    (buffer : line_buffer) : line_buffer :=
  if OpenClipboard = false then buffer
  else
    match clip_data with
    | some utf8 => buffer.insert (strip_crlf setting utf8)
    | none => buffer

/-! ## copy_impl, copy_line, copy_cwd (lines 109-145) -/

/-- The function `copy_impl(value, length)`: the calls received by the
clipboard after it.  `GlobalAlloc` tells whether the allocation succeeds and
`OpenClipboard` whether `OpenClipboard(nullptr)` does; `to_utf16` converts at
most `length` characters of `value`. -/
def copy_impl (GlobalAlloc OpenClipboard : Bool) (value : List Char) (length : Nat)
    (clipboard : List clipboard_call) : List clipboard_call :=
  if GlobalAlloc = false then clipboard
  else if OpenClipboard = false then clipboard
  else
    clipboard ++ [clipboard_call.CF_TEXT none,
      clipboard_call.CF_UNICODETEXT (some (value.take length))]

/-- The function `copy_line(buffer)`. -/
def copy_line (GlobalAlloc OpenClipboard : Bool) (buffer : line_buffer)
    (clipboard : List clipboard_call) : List clipboard_call :=
  copy_impl GlobalAlloc OpenClipboard buffer.get_buffer buffer.get_length clipboard

/-- The function `copy_cwd(buffer)`.  `GetCurrentDirectory` is the operating
system call `GetCurrentDirectory(size, data)`: from the size of the buffer it
gives the length it returns (0 when it fails, more than the size when the path
does not fit) and the string found in the buffer afterwards.  `path_clean` is
`path::clean` of `core/path.h`, which is not among the sources. -/
def copy_cwd (GetCurrentDirectory : Nat → Nat × List Char)
    (path_clean : List Char → List Char) (GlobalAlloc OpenClipboard : Bool)
    (_buffer : line_buffer) (clipboard : List clipboard_call) : List clipboard_call :=
  let (length, cwd) := GetCurrentDirectory 270
  if length < 270 then
    let cwd := str_concat cwd [backslash]
    let cwd := path_clean cwd
    copy_impl GlobalAlloc OpenClipboard cwd cwd.length clipboard
  else clipboard

/-! ## up_directory (lines 148-155) -/

/-- The function `up_directory(result, buffer)`: the result and the buffer
after the call. -/
def up_directory (result : HostBackend.result) (buffer : line_buffer) :
    HostBackend.result × line_buffer :=
  let buffer := buffer.begin_undo_group
  let buffer := buffer.remove 0 all_ones
  let buffer := buffer.insert [' ', 'c', 'd', ' ', '.', '.']
  let buffer := buffer.end_undo_group
  (result.done, buffer)

/-! ## insert_dot_dot (lines 216-226) -/

/-- The function `insert_dot_dot(buffer)`.  `is_separator` is
`path::is_separator` of `core/path.h`, which is not among the sources. -/
def insert_dot_dot (is_separator : Char → Bool) (buffer : line_buffer) : line_buffer :=
  let cursor := buffer.get_cursor
  let buffer :=
    if cursor ≠ 0 then
      let last_char := char_at buffer.get_buffer (cursor - 1)
      if last_char ≠ ' ' ∧ is_separator last_char = false then buffer.insert [backslash]
      else buffer
    else buffer
  buffer.insert ['.', '.', backslash]

/-! ## host_backend::on_input (lines 231-283) -/

/-- What the operating system and the libraries outside the sources answer
during one action. -/
structure host_os where
  paste_crlf : Int
  OpenClipboard : Bool
  clip_data : Option (List Char)
  GlobalAlloc : Bool
  GetCurrentDirectory : Nat → Nat × List Char
  path_clean : List Char → List Char
  is_separator : Char → Bool
  ExpandEnvironmentStrings : List Char → Nat → Nat × List Char

/-- What one action can read and change: the result and the context passed to
`on_input`, and the system clipboard. -/
structure host_state where
  result : result
  context : context
  clipboard : List clipboard_call
  deriving DecidableEq, Repr

/-- The identifier `bind_id_paste` of the anonymous enumeration. -/
def bind_id_paste : Nat := 0

/-- The identifier `bind_id_ctrlc`. -/
def bind_id_ctrlc : Nat := 1

/-- The identifier `bind_id_copy_line`. -/
def bind_id_copy_line : Nat := 2

/-- The identifier `bind_id_copy_cwd`. -/
def bind_id_copy_cwd : Nat := 3

/-- The identifier `bind_id_up_dir`. -/
def bind_id_up_dir : Nat := 4

/-- The identifier `bind_id_expand_env`. -/
def bind_id_expand_env : Nat := 5

/-- The identifier `bind_id_dotdot`. -/
def bind_id_dotdot : Nat := 6

/-- The function `host_backend::on_input(input, result, context)`, with
`input.id` as its second argument.  The `switch` has no default case. -/
def on_input (os : host_os) (id : Nat) (s : host_state) : host_state :=
  if id = bind_id_paste then
    let buffer := paste os.paste_crlf os.OpenClipboard os.clip_data s.context.buffer
    { s with context := { s.context with buffer := buffer } }
  else if id = bind_id_ctrlc then
    let (result, context) := ctrl_c s.result s.context
    { s with result := result, context := context }
  else if id = bind_id_copy_line then
    let clipboard := copy_line os.GlobalAlloc os.OpenClipboard s.context.buffer s.clipboard
    { s with clipboard := clipboard }
  else if id = bind_id_copy_cwd then
    let clipboard := copy_cwd os.GetCurrentDirectory os.path_clean os.GlobalAlloc
      os.OpenClipboard s.context.buffer s.clipboard
    { s with clipboard := clipboard }
  else if id = bind_id_up_dir then
    let (result, buffer) := up_directory s.result s.context.buffer
    { s with result := result, context := { s.context with buffer := buffer } }
  else if id = bind_id_expand_env then
    let buffer := expand_env_vars os.ExpandEnvironmentStrings s.context.buffer
    { s with context := { s.context with buffer := buffer } }
  else if id = bind_id_dotdot then
    let buffer := insert_dot_dot os.is_separator s.context.buffer
    { s with context := { s.context with buffer := buffer } }
  else s

/-! ## Words of the specification on undo groups -/

/-- The words of the specification, not the code: a trace of buffer calls is
one undo group when it has exactly one `begin_undo_group` and exactly one
`end_undo_group`, the first as its first call and the second as its last. -/
def one_undo_group (trace : List buffer_op) : Prop :=
  trace.count buffer_op.begin_undo_group = 1
    ∧ trace.count buffer_op.end_undo_group = 1
    ∧ ∃ mutations : List buffer_op,
        trace = [buffer_op.begin_undo_group] ++ mutations ++ [buffer_op.end_undo_group]
          ∧ ∀ op ∈ mutations, op ≠ buffer_op.begin_undo_group ∧ op ≠ buffer_op.end_undo_group

/-- The words of the specification, not the code: the number of undo groups
left open by the calls of a trace, from `depth` groups open before it; `none`
when a group is begun inside an open group or ended with no group open. -/
def open_groups : Option Nat → List buffer_op → Option Nat
  | depth, [] => depth
  | none, _ :: _ => none
  | some 0, buffer_op.begin_undo_group :: trace => open_groups (some 1) trace
  | some (_ + 1), buffer_op.begin_undo_group :: _ => none
  | some 0, buffer_op.end_undo_group :: _ => none
  | some (n + 1), buffer_op.end_undo_group :: trace => open_groups (some n) trace
  | some n, _ :: trace => open_groups (some n) trace

/-! ## Values for the examples -/

/-- A `path::is_separator` for the examples: the slash and the backslash. -/
def is_separator_example (c : Char) : Bool := c == '/' || c == backslash

/-- The line `cd foo` for the examples. -/
def text_cd_foo : List Char := "cd foo".toList

/-- An operating system for the examples: a clipboard holding `x`, the working
directory `C:`, and the environment of `expand_path_only`. -/
def os_example : host_os :=
  { paste_crlf := 1
    OpenClipboard := true
    clip_data := some ['x']
    GlobalAlloc := true
    GetCurrentDirectory := fun _ => (2, ['C', ':'])
    path_clean := fun p => p
    is_separator := is_separator_example
    ExpandEnvironmentStrings := expand_path_only }

/-- A state for the examples: the line `echo %PATH% rest` with the cursor at 7,
and nothing received yet by the buffer, the terminal, the result or the
clipboard. -/
def state_example : host_state :=
  { result := ⟨[]⟩
    context := { buffer := ⟨text_echo_path, 7, []⟩, terminal := ⟨[]⟩ }
    clipboard := [] }

/-! ## Lemmas on strip_crlf -/

theorem strip_crlf_loop_length_le (setting : Int) (prev : Bool) (line : List Char) :
    (strip_crlf_loop setting prev line).length ≤ line.length := by
  induction line generalizing prev with
  | nil => simp [strip_crlf_loop]
  | cons c read ih =>
    unfold strip_crlf_loop
    split_ifs
    · simpa using ih false
    · simpa using ih true
    · exact Nat.le_succ_of_le (ih prev)

theorem strip_crlf_loop_delete (prev : Bool) (line : List Char) :
    strip_crlf_loop 1 prev line = line.filter (fun c => c != '\n' && c != '\r') := by
  induction line generalizing prev with
  | nil => simp [strip_crlf_loop]
  | cons c read ih =>
    unfold strip_crlf_loop
    by_cases h : c ≠ '\n' ∧ c ≠ '\r'
    · rw [if_pos h, ih false, List.filter_cons_of_pos (by simpa using h)]
    · rw [if_neg h, if_neg (fun h1 => absurd h1.1 (by decide)), ih prev, List.filter_cons_of_neg (by simpa using h)]

theorem is_crlf_false_iff (c : Char) : is_crlf c = false ↔ (c ≠ '\n' ∧ c ≠ '\r') := by
  simp [is_crlf]

theorem strip_crlf_loop_cons_other (setting : Int) (prev : Bool) (c : Char) (read : List Char)
    (h : is_crlf c = false) :
    strip_crlf_loop setting prev (c :: read) = c :: strip_crlf_loop setting false read := by
  rw [strip_crlf_loop, if_pos ((is_crlf_false_iff c).1 h)]

theorem strip_crlf_loop_cons_crlf (setting : Int) (prev : Bool) (c : Char) (read : List Char)
    (h : is_crlf c = true) :
    strip_crlf_loop setting prev (c :: read) =
      if setting > 1 ∧ prev = false then ' ' :: strip_crlf_loop setting true read
      else strip_crlf_loop setting prev read := by
  have hc : ¬ (c ≠ '\n' ∧ c ≠ '\r') := by
    rw [← is_crlf_false_iff]; simp [h]
  rw [strip_crlf_loop, if_neg hc]

theorem splitBy_loop_acc {α : Type} (R : α → α → Bool) (l : List α) (a : α) (g : List α)
    (gs : List (List α)) :
    List.splitBy.loop R l a g gs = gs.reverse ++ List.splitBy.loop R l a g [] := by
  induction l generalizing a g gs with
  | nil => simp [List.splitBy.loop]
  | cons b l ih =>
    cases hR : R a b with
    | true => simp only [List.splitBy.loop, hR]; exact ih b (a :: g) gs
    | false =>
      simp only [List.splitBy.loop, hR]
      rw [ih b [] ((a :: g).reverse :: gs), ih b [] [(a :: g).reverse]]
      simp

theorem run_all_is_crlf (a : Char) (g : List Char) (hg : ∀ x ∈ g, is_crlf x = is_crlf a) :
    (g.reverse ++ [a]).all is_crlf = is_crlf a := by
  cases ha : is_crlf a with
  | true =>
    rw [List.all_eq_true]
    intro x hx
    simp only [List.mem_append, List.mem_reverse, List.mem_singleton] at hx
    rcases hx with hx | hx
    · rw [hg x hx, ha]
    · rw [hx, ha]
  | false =>
    rw [List.all_eq_false]
    exact ⟨a, by simp, by simp [ha]⟩

theorem replace_runs_loop (l : List Char) (a : Char) (g : List Char)
    (hg : ∀ x ∈ g, is_crlf x = is_crlf a) :
    ((List.splitBy.loop (fun a b => is_crlf a == is_crlf b) l a g []).map
        (fun run => if run.all is_crlf then [' '] else run)).flatten
      = (if is_crlf a then [' '] else g.reverse ++ [a]) ++ strip_crlf_loop 2 (is_crlf a) l := by
  induction l generalizing a g with
  | nil =>
    have hall := run_all_is_crlf a g hg
    simp only [List.splitBy.loop, List.reverse_cons, List.reverse_nil, List.nil_append,
      List.map_cons, List.map_nil, List.flatten_cons, List.flatten_nil, List.append_nil,
      strip_crlf_loop, hall]
  | cons b l ih =>
    cases hab : is_crlf a == is_crlf b with
    | true =>
      have hab2 : is_crlf a = is_crlf b := by simpa using hab
      simp only [List.splitBy.loop, hab]
      rw [ih b (a :: g) (by
        intro x hx
        rcases List.mem_cons.1 hx with hx | hx
        · rw [hx, hab2]
        · rw [hg x hx, hab2])]
      cases hb : is_crlf b with
      | true =>
        rw [hb] at hab2
        rw [strip_crlf_loop_cons_crlf 2 _ b l hb, hab2]
        simp
      | false =>
        rw [hb] at hab2
        rw [strip_crlf_loop_cons_other 2 _ b l hb, hab2]
        simp
    | false =>
      have hab2 : is_crlf a ≠ is_crlf b := by simpa using hab
      simp only [List.splitBy.loop, hab]
      rw [splitBy_loop_acc, List.map_append, List.flatten_append, ih b [] (by simp)]
      have hall := run_all_is_crlf a g hg
      cases hb : is_crlf b with
      | true =>
        have ha : is_crlf a = false := by
          cases h : is_crlf a with
          | true => exact absurd (h.trans hb.symm) hab2
          | false => rfl
        rw [strip_crlf_loop_cons_crlf 2 _ b l hb]
        simp only [List.reverse_cons, List.reverse_nil, List.nil_append, List.map_cons,
          List.map_nil, List.flatten_cons, List.flatten_nil, List.append_nil, hall, ha]
        simp
      | false =>
        have ha : is_crlf a = true := by
          cases h : is_crlf a with
          | true => rfl
          | false => exact absurd (h.trans hb.symm) hab2
        rw [strip_crlf_loop_cons_other 2 _ b l hb]
        simp only [List.reverse_cons, List.reverse_nil, List.nil_append, List.map_cons,
          List.map_nil, List.flatten_cons, List.flatten_nil, List.append_nil, hall, ha]
        simp

theorem strip_crlf_loop_no_crlf (setting : Int) (prev : Bool) (line : List Char) :
    ∀ c ∈ strip_crlf_loop setting prev line, c ≠ '\n' ∧ c ≠ '\r' := by
  induction line generalizing prev with
  | nil => simp [strip_crlf_loop]
  | cons x read ih =>
    intro c hc
    unfold strip_crlf_loop at hc
    split_ifs at hc with h1 h2
    · rcases List.mem_cons.1 hc with h | h
      · rw [h]; exact h1
      · exact ih false c h
    · rcases List.mem_cons.1 hc with h | h
      · rw [h]; decide
      · exact ih true c h
    · exact ih prev c hc

theorem strip_crlf_loop_above (setting : Int) (h : 2 < setting) (prev : Bool) (line : List Char) :
    strip_crlf_loop setting prev line = strip_crlf_loop 2 prev line := by
  induction line generalizing prev with
  | nil => simp [strip_crlf_loop]
  | cons x read ih =>
    have h1 : setting > 1 := by omega
    have h2 : (2 : Int) > 1 := by decide
    unfold strip_crlf_loop
    simp only [h1, h2, true_and, ih]

/-! ## The memory model of strip_crlf computes strip_crlf -/

theorem c_str_append_of_no_nul (pre rest : List Char) (h : Char.ofNat 0 ∉ pre) :
    c_str (pre ++ rest) = pre ++ c_str rest := by
  unfold c_str
  rw [List.takeWhile_append_of_pos]
  intro c hc
  have : c ≠ Char.ofNat 0 := fun hh => h (hh ▸ hc)
  simpa using this

theorem c_str_set_nul (mem : List Char) (write : Nat) (h : Char.ofNat 0 ∉ mem.take write) :
    c_str (mem.set write (Char.ofNat 0)) = mem.take write := by
  by_cases hw : write < mem.length
  · have hs : mem.set write (Char.ofNat 0)
        = mem.take write ++ Char.ofNat 0 :: mem.drop (write + 1) := by
      rw [List.set_eq_take_append_cons_drop, if_pos hw]
    rw [hs, c_str_append_of_no_nul _ _ h]
    simp [c_str]
  · have hs : mem.set write (Char.ofNat 0) = mem := by
      rw [List.set_eq_take_append_cons_drop, if_neg hw]
    have ht : mem.take write = mem := List.take_of_length_le (by omega)
    rw [hs]
    rw [ht] at h
    have := c_str_append_of_no_nul mem [] h
    simpa [c_str, ht] using this

theorem take_succ_set (mem : List Char) (write : Nat) (x : Char) (hw : write < mem.length) :
    (mem.set write x).take (write + 1) = mem.take write ++ [x] := by
  have hlen : (mem.take write ++ [x]).length = write + 1 := by
    rw [List.length_append, List.length_take, Nat.min_eq_left (Nat.le_of_lt hw)]
    rfl
  have hs : mem.set write x = (mem.take write ++ [x]) ++ mem.drop (write + 1) := by
    rw [List.set_eq_take_append_cons_drop, if_pos hw, List.append_assoc]
    rfl
  rw [hs, List.take_left' hlen]

theorem strip_crlf_mem_loop_c_str (setting : Int) (n : Nat) (mem : List Char)
    (read write : Nat) (prev : Bool)
    (hn : n = mem.length - read) (hw : write ≤ read) (hnul : Char.ofNat 0 ∉ mem.take write) :
    c_str (strip_crlf_mem_loop setting n mem read write prev)
      = mem.take write ++ strip_crlf_loop setting prev (c_str (mem.drop read)) := by
  induction n generalizing mem read write prev with
  | zero =>
    have hd : mem.drop read = [] := List.drop_of_length_le (by omega)
    rw [hd]
    simp only [strip_crlf_mem_loop]
    rw [c_str_set_nul mem write hnul]
    simp [c_str, strip_crlf_loop]
  | succ n ih =>
    have hr : read < mem.length := by omega
    have hwl : write < mem.length := by omega
    have hget : mem.getD read (Char.ofNat 0) = mem[read] := by
      rw [List.getD_eq_getElem?_getD, List.getElem?_eq_getElem hr]
      rfl
    have hd : mem.drop read = mem[read] :: mem.drop (read + 1) := List.drop_eq_getElem_cons hr
    have hstore : ∀ x : Char, x ≠ Char.ofNat 0 → ∀ p : Bool,
        c_str (strip_crlf_mem_loop setting n (mem.set write x) (read + 1) (write + 1) p)
          = mem.take write ++ x :: strip_crlf_loop setting p (c_str (mem.drop (read + 1))) := by
      intro x hx p
      rw [ih (mem.set write x) (read + 1) (write + 1) p (by rw [List.length_set]; omega)
        (by omega) ?_, take_succ_set mem write x hwl,
        List.drop_set_of_lt x mem (by omega : write < read + 1)]
      · simp
      · rw [take_succ_set mem write x hwl]
        intro hm
        rcases List.mem_append.1 hm with h | h
        · exact hnul h
        · exact hx (List.mem_singleton.1 h).symm
    unfold strip_crlf_mem_loop
    simp only [hget]
    rw [hd]
    by_cases h0 : mem[read] = Char.ofNat 0
    · rw [if_pos h0, c_str_set_nul mem write hnul]
      simp [c_str, h0, strip_crlf_loop]
    · have hc : c_str (mem[read] :: mem.drop (read + 1))
          = mem[read] :: c_str (mem.drop (read + 1)) := by
        unfold c_str
        rw [List.takeWhile_cons_of_pos (by simpa using h0)]
      rw [if_neg h0, hc]
      unfold strip_crlf_loop
      split_ifs with h1 h2
      · exact hstore _ h0 false
      · exact hstore ' ' (by decide) true
      · exact ih mem (read + 1) write prev (by omega) (by omega) hnul

theorem strip_crlf_mem_c_str (setting : Int) (mem : List Char) :
    c_str (strip_crlf_mem setting mem) = strip_crlf setting (c_str mem) := by
  unfold strip_crlf_mem strip_crlf
  split_ifs
  · rfl
  · rw [strip_crlf_mem_loop_c_str setting mem.length mem 0 0 false (by simp) (Nat.le_refl 0)
      (by simp)]
    simp

/-! ## Lemmas on get_word_bounds -/

theorem char_at_eq_iff (str : List Char) (i : Nat) (d : Char) (h : i < str.length) :
    char_at str i = d ↔ str[i]? = some d := by
  unfold char_at
  rw [List.getD_eq_getElem?_getD, List.getElem?_eq_getElem h]
  simp

theorem count_loop_eq (str : List Char) (d : Char) (cursor : Nat) (h : cursor ≤ str.length) :
    (List.range cursor).foldl (fun delim i => delim + (if char_at str i = d then 1 else 0)) 0
      = (str.take cursor).count d := by
  induction cursor with
  | zero => simp
  | succ n ih =>
    have hn : n < str.length := h
    rw [List.range_succ, List.foldl_append, ih (Nat.le_of_lt hn), List.take_succ,
      List.count_append, List.getElem?_eq_getElem hn]
    simp only [List.foldl_cons, List.foldl_nil, Option.toList_some, List.count_cons,
      List.count_nil, Nat.zero_add, char_at_eq_iff str n d hn, List.getElem?_eq_getElem hn,
      Option.some.injEq, beq_iff_eq]

theorem scan_left_spec (str : List Char) (d : Char) (n : Nat) (h : n ≤ str.length) :
    scan_left str d n ≤ n
      ∧ (∀ j, scan_left str d n ≤ j → j < n → str[j]? ≠ some d)
      ∧ (scan_left str d n = 0 ∨ ∃ q, scan_left str d n = q + 1 ∧ str[q]? = some d) := by
  induction n with
  | zero => simp [scan_left]
  | succ i ih =>
    have hi : i < str.length := h
    obtain ⟨ih1, ih2, ih3⟩ := ih (Nat.le_of_lt hi)
    unfold scan_left
    by_cases hc : char_at str i = d
    · rw [if_pos hc]
      refine ⟨Nat.le_refl _, fun j h1 h2 => absurd h1 (by omega), Or.inr ⟨i, rfl, ?_⟩⟩
      exact (char_at_eq_iff str i d hi).1 hc
    · rw [if_neg hc]
      refine ⟨Nat.le_succ_of_le ih1, fun j h1 h2 => ?_, ih3⟩
      by_cases hj : j < i
      · exact ih2 j h1 hj
      · have hji : j = i := by omega
        rw [hji]
        exact fun hh => hc ((char_at_eq_iff str i d hi).2 hh)

theorem strchr_some (s : List Char) (c : Char) (k : Nat) (h : strchr s c = some k) :
    s[k]? = some c ∧ ∀ j, j < k → s[j]? ≠ some c := by
  induction s generalizing k with
  | nil => simp [strchr] at h
  | cons x s ih =>
    unfold strchr at h
    by_cases hx : x = c
    · rw [if_pos hx] at h
      have hk : k = 0 := by simpa using h.symm
      subst hk
      exact ⟨by simp [hx], fun j hj => absurd hj (by omega)⟩
    · rw [if_neg hx] at h
      cases hs : strchr s c with
      | none => rw [hs] at h; simp at h
      | some m =>
        rw [hs] at h
        have hk : k = m + 1 := by simpa using h.symm
        subst hk
        obtain ⟨h1, h2⟩ := ih m hs
        refine ⟨by simpa using h1, fun j hj => ?_⟩
        cases j with
        | zero => simpa using hx
        | succ j => simpa using h2 j (by omega)

theorem strchr_none (s : List Char) (c : Char) (h : strchr s c = none) :
    ∀ j : Nat, s[j]? ≠ some c := by
  induction s with
  | nil => simp
  | cons x s ih =>
    unfold strchr at h
    by_cases hx : x = c
    · rw [if_pos hx] at h; simp at h
    · rw [if_neg hx] at h
      have hs : strchr s c = none := by simpa using h
      intro j
      cases j with
      | zero => simpa using hx
      | succ j => simpa using ih hs j

/-- The right bound of `get_word_bounds` for the delimiter `d`. -/
theorem right_bound_spec (str : List Char) (d : Char) (cursor : Nat) (h : cursor ≤ str.length)
    (r : Nat)
    (hr : r = match strchr (str.drop cursor) d with
      | some post => cursor + post
      | none => str.length) :
    cursor ≤ r ∧ r ≤ str.length ∧ (∀ j, cursor ≤ j → j < r → str[j]? ≠ some d)
      ∧ (str[r]? = some d ∨ r = str.length) := by
  cases hs : strchr (str.drop cursor) d with
  | some post =>
    rw [hs] at hr
    change r = cursor + post at hr
    obtain ⟨h1, h2⟩ := strchr_some _ _ _ hs
    rw [List.getElem?_drop] at h1
    subst hr
    have hlt : cursor + post < str.length := by
      by_contra hge
      rw [List.getElem?_eq_none (by omega)] at h1
      simp at h1
    refine ⟨by omega, by omega, fun j hj1 hj2 => ?_, Or.inl h1⟩
    have := h2 (j - cursor) (by omega)
    rw [List.getElem?_drop] at this
    rwa [show cursor + (j - cursor) = j by omega] at this
  | none =>
    rw [hs] at hr
    change r = str.length at hr
    subst hr
    refine ⟨h, Nat.le_refl _, fun j hj1 hj2 => ?_, Or.inr rfl⟩
    have := strchr_none _ _ hs (j - cursor)
    rw [List.getElem?_drop] at this
    rwa [show cursor + (j - cursor) = j by omega] at this

theorem count_take_eq_zero (str : List Char) (d : Char) (n : Nat)
    (h : ∀ j, j < n → str[j]? ≠ some d) : (str.take n).count d = 0 := by
  rw [List.count_eq_zero]
  intro hm
  obtain ⟨j, hj⟩ := List.mem_iff_getElem?.1 hm
  rw [List.getElem?_take] at hj
  split_ifs at hj with hjn
  · exact h j hjn hj

theorem get_word_bounds_eq (buffer : line_buffer) (h : buffer.cursor ≤ buffer.text.length) :
    get_word_bounds buffer
      = (scan_left buffer.text (active_delimiter buffer.text buffer.cursor) buffer.cursor,
          match strchr (buffer.text.drop buffer.cursor)
            (active_delimiter buffer.text buffer.cursor) with
          | some post => buffer.cursor + post
          | none => buffer.text.length) := by
  unfold get_word_bounds active_delimiter line_buffer.get_buffer line_buffer.get_cursor
  simp only [count_loop_eq buffer.text dquote buffer.cursor h]

theorem get_word_bounds_left (buffer : line_buffer) (h : buffer.cursor ≤ buffer.text.length) :
    (get_word_bounds buffer).1 ≤ buffer.cursor
      ∧ (∀ j : Nat, (get_word_bounds buffer).1 ≤ j → j < buffer.cursor →
          buffer.text[j]? ≠ some (active_delimiter buffer.text buffer.cursor))
      ∧ ((get_word_bounds buffer).1 = 0 ∨ ∃ q, (get_word_bounds buffer).1 = q + 1
          ∧ buffer.text[q]? = some (active_delimiter buffer.text buffer.cursor)) := by
  rw [get_word_bounds_eq buffer h]
  exact scan_left_spec buffer.text _ buffer.cursor h

theorem get_word_bounds_right (buffer : line_buffer) (h : buffer.cursor ≤ buffer.text.length) :
    buffer.cursor ≤ (get_word_bounds buffer).2 ∧ (get_word_bounds buffer).2 ≤ buffer.text.length
      ∧ (∀ j : Nat, buffer.cursor ≤ j → j < (get_word_bounds buffer).2 →
          buffer.text[j]? ≠ some (active_delimiter buffer.text buffer.cursor))
      ∧ (buffer.text[(get_word_bounds buffer).2]? =
            some (active_delimiter buffer.text buffer.cursor)
          ∨ (get_word_bounds buffer).2 = buffer.text.length) := by
  rw [get_word_bounds_eq buffer h]
  exact right_bound_spec buffer.text _ buffer.cursor h _ rfl

theorem last_before_or_none (buffer : line_buffer) (h : buffer.cursor ≤ buffer.text.length) :
    (∃ q, last_before buffer.text (active_delimiter buffer.text buffer.cursor) buffer.cursor q
        ∧ (get_word_bounds buffer).1 = q + 1)
      ∨ ((∀ j : Nat, j < buffer.cursor →
            buffer.text[j]? ≠ some (active_delimiter buffer.text buffer.cursor))
          ∧ (get_word_bounds buffer).1 = 0) := by
  obtain ⟨h1, h2, h3⟩ := get_word_bounds_left buffer h
  rcases h3 with h0 | ⟨q, hq, hq2⟩
  · exact Or.inr ⟨fun j hj => h2 j (by omega) hj, h0⟩
  · exact Or.inl ⟨q, ⟨by omega, hq2, fun j hj1 hj2 => h2 j (by omega) hj2⟩, hq⟩

/-! ## Lemmas on expand_env_vars -/

theorem remove_set_cursor_insert (b : line_buffer) (l r : Nat) (e : List Char)
    (hlr : l ≤ r) (hr : r ≤ b.text.length) :
    (((b.remove l r).set_cursor l).insert e).text = b.text.take l ++ e ++ b.text.drop r
      ∧ (((b.remove l r).set_cursor l).insert e).cursor = l + e.length := by
  have hl : l ≤ b.text.length := Nat.le_trans hlr hr
  have hlen : (b.text.take l).length = l := by simp [hl]
  have hcur : min l (List.take l b.text ++ List.drop r b.text).length = l := by
    rw [List.length_append, hlen]
    omega
  simp only [line_buffer.remove, line_buffer.set_cursor, line_buffer.insert, Nat.max_eq_right hlr,
    hcur, Nat.min_self]
  constructor
  · rw [List.take_left' hlen, List.drop_left' hlen]
  · trivial

theorem expand_env_vars_of_ne_zero
    (ExpandEnvironmentStrings : List Char → Nat → Nat × List Char) (buffer : line_buffer)
    (hok : (ExpandEnvironmentStrings (expand_env_vars_in buffer) 1024).1 ≠ 0) :
    expand_env_vars ExpandEnvironmentStrings buffer
      = ((((buffer.begin_undo_group).remove (get_word_bounds buffer).1
            (get_word_bounds buffer).2).set_cursor (get_word_bounds buffer).1).insert
            (ExpandEnvironmentStrings (expand_env_vars_in buffer) 1024).2).end_undo_group := by
  unfold expand_env_vars
  simp only [hok, if_false]

theorem expand_env_vars_in_eq (buffer : line_buffer) :
    expand_env_vars_in buffer
      = (buffer.text.drop (get_word_bounds buffer).1).take
          ((get_word_bounds buffer).2 - (get_word_bounds buffer).1) := by
  simp [expand_env_vars_in, str_truncate, str_concat, line_buffer.get_buffer]

/-! ## Lemmas on the handlers -/

theorem remove_all_text (b : line_buffer) (h : b.text.length ≤ all_ones) :
    (b.remove 0 all_ones).text = [] := by
  simp only [line_buffer.remove, List.take_zero, List.nil_append, Nat.zero_max]
  exact List.drop_of_length_le h

theorem insert_into_empty (b : line_buffer) (s : List Char) (h : b.text = []) :
    (b.insert s).text = s := by
  simp [line_buffer.insert, h]

theorem insert_text (b : line_buffer) (s : List Char) :
    (b.insert s).text = b.text.take b.cursor ++ s ++ b.text.drop b.cursor := rfl

theorem insert_cursor (b : line_buffer) (s : List Char) (h : b.cursor ≤ b.text.length) :
    (b.insert s).cursor = b.cursor + s.length := by
  simp [line_buffer.insert, Nat.min_eq_left h]

theorem insert_insert_text (b : line_buffer) (s t : List Char) (h : b.cursor ≤ b.text.length) :
    ((b.insert s).insert t).text = b.text.take b.cursor ++ (s ++ t) ++ b.text.drop b.cursor := by
  have hlen : (b.text.take b.cursor ++ s).length = b.cursor + s.length := by
    simp [Nat.min_eq_left h]
  rw [insert_text (b.insert s) t, insert_cursor b s h, insert_text b s,
    List.take_left' hlen, List.drop_left' hlen]
  simp

theorem insert_dot_dot_plain (is_separator : Char → Bool) (buffer : line_buffer)
    (h : buffer.cursor = 0 ∨ char_at buffer.text (buffer.cursor - 1) = ' '
      ∨ is_separator (char_at buffer.text (buffer.cursor - 1)) = true) :
    insert_dot_dot is_separator buffer = buffer.insert ['.', '.', backslash] := by
  unfold insert_dot_dot line_buffer.get_cursor line_buffer.get_buffer
  by_cases h0 : buffer.cursor = 0
  · simp [h0]
  · rcases h with h | h | h
    · exact absurd h h0
    · simp [h0, h]
    · simp [h0, h]

theorem insert_dot_dot_separated (is_separator : Char → Bool) (buffer : line_buffer)
    (h0 : buffer.cursor ≠ 0) (h1 : char_at buffer.text (buffer.cursor - 1) ≠ ' ')
    (h2 : is_separator (char_at buffer.text (buffer.cursor - 1)) = false) :
    insert_dot_dot is_separator buffer
      = (buffer.insert [backslash]).insert ['.', '.', backslash] := by
  unfold insert_dot_dot line_buffer.get_cursor line_buffer.get_buffer
  simp [h0, h1, h2]

theorem strip_crlf_loop_of_no_crlf (setting : Int) (prev : Bool) (line : List Char)
    (h : ∀ c ∈ line, c ≠ '\n' ∧ c ≠ '\r') : strip_crlf_loop setting prev line = line := by
  induction line generalizing prev with
  | nil => simp [strip_crlf_loop]
  | cons c read ih =>
    unfold strip_crlf_loop
    rw [if_pos (h c (List.mem_cons_self c read)),
      ih false (fun x hx => h x (List.mem_cons_of_mem c hx))]

/-! ## Lemmas on undo groups -/

theorem open_groups_none (trace : List buffer_op) : open_groups none trace = none := by
  cases trace <;> rfl

theorem open_groups_append (depth : Option Nat) (a b : List buffer_op) :
    open_groups depth (a ++ b) = open_groups (open_groups depth a) b := by
  induction a generalizing depth with
  | nil => simp [open_groups]
  | cons op a ih =>
    cases depth with
    | none => simp [open_groups, open_groups_none]
    | some n =>
      cases n with
      | zero => cases op <;> simp [open_groups, ih, open_groups_none]
      | succ n => cases op <;> simp [open_groups, ih, open_groups_none]

theorem up_directory_ops (result : HostBackend.result) (buffer : line_buffer) :
    (up_directory result buffer).2.ops
      = buffer.ops ++ [buffer_op.begin_undo_group, buffer_op.remove 0 all_ones,
          buffer_op.insert [' ', 'c', 'd', ' ', '.', '.'], buffer_op.end_undo_group] := by
  simp [up_directory, line_buffer.begin_undo_group, line_buffer.remove, line_buffer.insert,
    line_buffer.end_undo_group]

theorem expand_env_vars_ops
    (ExpandEnvironmentStrings : List Char → Nat → Nat × List Char) (buffer : line_buffer)
    (hok : (ExpandEnvironmentStrings (expand_env_vars_in buffer) 1024).1 ≠ 0) :
    (expand_env_vars ExpandEnvironmentStrings buffer).ops
      = buffer.ops ++ [buffer_op.begin_undo_group,
          buffer_op.remove (get_word_bounds buffer).1 (get_word_bounds buffer).2,
          buffer_op.set_cursor (get_word_bounds buffer).1,
          buffer_op.insert (ExpandEnvironmentStrings (expand_env_vars_in buffer) 1024).2,
          buffer_op.end_undo_group] := by
  rw [expand_env_vars_of_ne_zero ExpandEnvironmentStrings buffer hok]
  simp [line_buffer.begin_undo_group, line_buffer.remove, line_buffer.insert,
    line_buffer.set_cursor, line_buffer.end_undo_group]

theorem expand_env_vars_of_zero
    (ExpandEnvironmentStrings : List Char → Nat → Nat × List Char) (buffer : line_buffer)
    (hfail : (ExpandEnvironmentStrings (expand_env_vars_in buffer) 1024).1 = 0) :
    expand_env_vars ExpandEnvironmentStrings buffer = buffer := by
  unfold expand_env_vars
  simp only [hfail, if_true]

theorem one_undo_group_of_mutations (mutations : List buffer_op)
    (h : ∀ op ∈ mutations, op ≠ buffer_op.begin_undo_group ∧ op ≠ buffer_op.end_undo_group) :
    one_undo_group
      ([buffer_op.begin_undo_group] ++ mutations ++ [buffer_op.end_undo_group]) := by
  have hb : mutations.count buffer_op.begin_undo_group = 0 :=
    List.count_eq_zero.2 (fun hm => (h _ hm).1 rfl)
  have he : mutations.count buffer_op.end_undo_group = 0 :=
    List.count_eq_zero.2 (fun hm => (h _ hm).2 rfl)
  refine ⟨?_, ?_, mutations, rfl, h⟩
  · simp [List.count_append, hb]
  · simp [List.count_append, he]

theorem on_input_trace (os : host_os) (id : Nat) (s : host_state) :
    ∃ trace, (on_input os id s).context.buffer.ops = s.context.buffer.ops ++ trace
      ∧ open_groups (some 0) trace = some 0 := by
  unfold on_input
  split_ifs
  · by_cases ho : os.OpenClipboard = false
    · exact ⟨[], by simp [paste, ho], rfl⟩
    · cases hd : os.clip_data with
      | none => exact ⟨[], by simp [paste, ho, hd], rfl⟩
      | some utf8 =>
        exact ⟨[buffer_op.insert (strip_crlf os.paste_crlf utf8)],
          by simp [paste, ho, hd, line_buffer.insert], rfl⟩
  · exact ⟨[buffer_op.remove 0 all_ones], by simp [ctrl_c, line_buffer.remove], rfl⟩
  · exact ⟨[], by simp, rfl⟩
  · exact ⟨[], by simp, rfl⟩
  · exact ⟨_, up_directory_ops s.result s.context.buffer, rfl⟩
  · by_cases h0 : (os.ExpandEnvironmentStrings (expand_env_vars_in s.context.buffer) 1024).1 = 0
    · exact ⟨[], by simp [expand_env_vars_of_zero _ _ h0], rfl⟩
    · exact ⟨_, expand_env_vars_ops _ _ h0, rfl⟩
  · by_cases h : s.context.buffer.cursor = 0
        ∨ char_at s.context.buffer.text (s.context.buffer.cursor - 1) = ' '
        ∨ os.is_separator (char_at s.context.buffer.text (s.context.buffer.cursor - 1)) = true
    · exact ⟨[buffer_op.insert ['.', '.', backslash]],
        by simp [insert_dot_dot_plain _ _ h, line_buffer.insert], rfl⟩
    · have h0 : s.context.buffer.cursor ≠ 0 := fun hh => h (Or.inl hh)
      have h1 : char_at s.context.buffer.text (s.context.buffer.cursor - 1) ≠ ' ' :=
        fun hh => h (Or.inr (Or.inl hh))
      have h2 : os.is_separator
          (char_at s.context.buffer.text (s.context.buffer.cursor - 1)) = false := by
        cases hs : os.is_separator
            (char_at s.context.buffer.text (s.context.buffer.cursor - 1)) with
        | true => exact absurd (Or.inr (Or.inr hs)) h
        | false => rfl
      exact ⟨[buffer_op.insert [backslash], buffer_op.insert ['.', '.', backslash]],
        by simp [insert_dot_dot_separated _ _ h0 h1 h2, line_buffer.insert], rfl⟩
  · exact ⟨[], by simp, rfl⟩

/-! ## Lemmas on the stability of the word span -/

theorem scan_left_unique (str : List Char) (d : Char) (n l : Nat) (hn : n ≤ str.length)
    (hl : l ≤ n) (hno : ∀ j : Nat, l ≤ j → j < n → str[j]? ≠ some d)
    (hat : l = 0 ∨ ∃ q, l = q + 1 ∧ str[q]? = some d) : scan_left str d n = l := by
  obtain ⟨h1, h2, h3⟩ := scan_left_spec str d n hn
  rcases Nat.lt_trichotomy (scan_left str d n) l with hlt | heq | hgt
  · rcases hat with h0 | ⟨q, hq, hqd⟩
    · omega
    · exact absurd hqd (h2 q (by omega) (by omega))
  · exact heq
  · rcases h3 with h0 | ⟨q, hq, hqd⟩
    · omega
    · exact absurd hqd (hno q (by omega) (by omega))

theorem right_bound_unique (str : List Char) (d : Char) (cursor r : Nat)
    (hc : cursor ≤ str.length) (hr : cursor ≤ r)
    (hno : ∀ j : Nat, cursor ≤ j → j < r → str[j]? ≠ some d)
    (hat : str[r]? = some d ∨ r = str.length) :
    (match strchr (str.drop cursor) d with
      | some post => cursor + post
      | none => str.length) = r := by
  obtain ⟨h1, h2, h3, h4⟩ := right_bound_spec str d cursor hc _ rfl
  generalize (match strchr (str.drop cursor) d with
      | some post => cursor + post
      | none => str.length) = r' at h1 h2 h3 h4 ⊢
  have hrlen : r ≤ str.length := by
    rcases hat with h | h
    · by_contra hgt
      rw [List.getElem?_eq_none (by omega)] at h
      simp at h
    · omega
  rcases Nat.lt_trichotomy r' r with hlt | heq | hgt
  · rcases h4 with h | h
    · exact absurd h (hno r' h1 hlt)
    · omega
  · exact heq
  · rcases hat with h | h
    · exact absurd h (h3 r hr hgt)
    · omega

theorem count_take_eq_of_none_between (str : List Char) (d : Char) (a b : Nat) (hab : a ≤ b)
    (hno : ∀ j : Nat, a ≤ j → j < b → str[j]? ≠ some d) :
    (str.take b).count d = (str.take a).count d := by
  have hsplit : str.take b = str.take a ++ (str.drop a).take (b - a) := by
    have hb : b = a + (b - a) := by omega
    conv_lhs => rw [hb]
    exact List.take_add str a (b - a)
  have hzero : ((str.drop a).take (b - a)).count d = 0 := by
    apply count_take_eq_zero
    intro j hj
    rw [List.getElem?_drop]
    exact hno (a + j) (by omega) (by omega)
  rw [hsplit, List.count_append, hzero, Nat.add_zero]

theorem active_delimiter_eq_of_none_between (str : List Char) (a b : Nat) (hab : a ≤ b)
    (hno : ∀ j : Nat, a ≤ j → j < b → str[j]? ≠ some dquote) :
    active_delimiter str b = active_delimiter str a := by
  unfold active_delimiter
  rw [count_take_eq_of_none_between str dquote a b hab hno]

/-! ## Claims -/

/-- C1: for every input string and every policy value the output of
`strip_crlf` is no longer than its input, and under the policy `unchanged`
(0) the output is the input. -/
theorem strip_crlf_length_le_and_unchanged (setting : Int) (line : List Char) :
    (strip_crlf setting line).length ≤ line.length ∧ strip_crlf 0 line = line := by
  refine ⟨?_, by simp [strip_crlf]⟩
  unfold strip_crlf
  split_ifs
  · exact Nat.le_refl _
  · exact strip_crlf_loop_length_le setting false line

/-- C2: under the policy `delete` (1) `strip_crlf` returns the input with
every line feed and carriage return removed and every other character kept in
its original order; the string a, CR, LF, b becomes ab. -/
theorem strip_crlf_delete (line : List Char) :
    strip_crlf 1 line = line.filter (fun c => c != '\n' && c != '\r')
      ∧ strip_crlf 1 ['a', '\r', '\n', 'b'] = ['a', 'b'] := by
  refine ⟨?_, by decide⟩
  unfold strip_crlf
  rw [if_neg (by decide)]
  exact strip_crlf_loop_delete false line

/-- C3: under the policy `space` (2) `strip_crlf` returns the input in which
each maximal run of consecutive line feeds and carriage returns is replaced by
exactly one space and every other character is copied unchanged in order; the
strings a, CR, LF, b and a, LF, LF, LF, b both become a, space, b. -/
theorem strip_crlf_space (line : List Char) :
    strip_crlf 2 line = replace_crlf_runs line
      ∧ strip_crlf 2 ['a', '\r', '\n', 'b'] = ['a', ' ', 'b']
      ∧ strip_crlf 2 ['a', '\n', '\n', '\n', 'b'] = ['a', ' ', 'b'] := by
  refine ⟨?_, by decide, by decide⟩
  unfold strip_crlf replace_crlf_runs
  rw [if_neg (by decide)]
  cases line with
  | nil => simp [List.splitBy, strip_crlf_loop]
  | cons a l =>
    simp only [List.splitBy]
    rw [replace_runs_loop l a [] (by simp)]
    cases ha : is_crlf a with
    | true => rw [strip_crlf_loop_cons_crlf 2 _ a l ha]; simp
    | false => rw [strip_crlf_loop_cons_other 2 _ a l ha]; simp

/-- C4, as stated, fails: with the policy value 3, which is none of 0, 1, 2,
`strip_crlf` is not a no-op on the string a, LF, b; it gives a, space, b. -/
theorem strip_crlf_out_of_range_not_noop :
    ¬ (∀ (setting : Int) (line : List Char), setting ≠ 0 → setting ≠ 1 → setting ≠ 2 →
        strip_crlf setting line = line)
      ∧ strip_crlf 3 ['a', '\n', 'b'] = ['a', ' ', 'b'] := by
  refine ⟨fun h => ?_, by decide⟩
  exact absurd (h 3 ['a', '\n', 'b'] (by decide) (by decide) (by decide)) (by decide)

/-- C4, amended: for every input string, `strip_crlf` is a no-op for every
policy value that is 0 or negative, and for every policy value greater than 2
its output is the output under the policy `space` (2). -/
theorem strip_crlf_out_of_range (setting : Int) (line : List Char) :
    (setting ≤ 0 → strip_crlf setting line = line)
      ∧ (2 < setting → strip_crlf setting line = strip_crlf 2 line) := by
  constructor
  · intro h
    simp [strip_crlf, h]
  · intro h
    unfold strip_crlf
    rw [if_neg (by omega), if_neg (by decide)]
    exact strip_crlf_loop_above setting h false line

theorem strip_crlf_out_of_range_witness :
    ((-1 : Int) ≤ 0 ∧ strip_crlf (-1) ['a', '\n', 'b'] = ['a', '\n', 'b'])
      ∧ ((2 : Int) < 3 ∧ strip_crlf 3 ['a', '\n', 'b'] = strip_crlf 2 ['a', '\n', 'b']) :=
  ⟨⟨by decide, (strip_crlf_out_of_range (-1) ['a', '\n', 'b']).1 (by decide)⟩,
    ⟨by decide, (strip_crlf_out_of_range 3 ['a', '\n', 'b']).2 (by decide)⟩⟩

/-- C5: for every input string and every policy value greater than 0 the
output of `strip_crlf` contains no carriage return and no line feed. -/
theorem strip_crlf_no_crlf (setting : Int) (line : List Char) (h : 0 < setting) :
    '\r' ∉ strip_crlf setting line ∧ '\n' ∉ strip_crlf setting line := by
  unfold strip_crlf
  rw [if_neg (by omega)]
  exact ⟨fun hm => (strip_crlf_loop_no_crlf setting false line _ hm).2 rfl,
    fun hm => (strip_crlf_loop_no_crlf setting false line _ hm).1 rfl⟩

theorem strip_crlf_no_crlf_witness :
    (0 : Int) < 2 ∧ '\r' ∉ strip_crlf 2 ['a', '\r', '\n', 'b']
      ∧ '\n' ∉ strip_crlf 2 ['a', '\r', '\n', 'b'] :=
  ⟨by decide, strip_crlf_no_crlf 2 ['a', '\r', '\n', 'b'] (by decide)⟩

/-- C6: for every text and cursor within it with an odd number of double-quotes
strictly before the cursor, `get_word_bounds` returns as left bound the index
of the last double-quote before the cursor plus one, and as right bound the
index of the first double-quote at or after the cursor, or the length of the
text when there is none; for the line `cd "my dir"` and every cursor inside
`my dir` the span is `(4, 10)`, the substring `my dir` without the quotes. -/
theorem get_word_bounds_quoted (buffer : line_buffer)
    (hc : buffer.cursor ≤ buffer.text.length)
    (hodd : (buffer.text.take buffer.cursor).count dquote % 2 = 1) :
    (∃ q, last_before buffer.text dquote buffer.cursor q ∧ (get_word_bounds buffer).1 = q + 1)
      ∧ first_from buffer.text dquote buffer.cursor (get_word_bounds buffer).2
      ∧ (∀ (cursor : Nat) (ops : List buffer_op), 4 ≤ cursor → cursor ≤ 10 →
          get_word_bounds ⟨text_cd_my_dir, cursor, ops⟩ = (4, 10))
      ∧ (text_cd_my_dir.drop 4).take (10 - 4) = "my dir".toList := by
  have hd : active_delimiter buffer.text buffer.cursor = dquote := by
    unfold active_delimiter
    rw [if_pos hodd]
  refine ⟨?_, ?_, ?_, by decide⟩
  · rcases last_before_or_none buffer hc with h | ⟨h, _⟩
    · rwa [hd] at h
    · rw [hd] at h
      rw [count_take_eq_zero buffer.text dquote buffer.cursor h] at hodd
      exact absurd hodd (by decide)
  · obtain ⟨h1, _, h3, h4⟩ := get_word_bounds_right buffer hc
    rw [hd] at h3 h4
    exact ⟨h1, h3, h4⟩
  · intro cursor ops h4 h10
    interval_cases cursor <;> rfl

theorem get_word_bounds_quoted_witness :
    (∃ q, last_before text_cd_my_dir dquote 6 q
        ∧ (get_word_bounds ⟨text_cd_my_dir, 6, []⟩).1 = q + 1)
      ∧ first_from text_cd_my_dir dquote 6 (get_word_bounds ⟨text_cd_my_dir, 6, []⟩).2
      ∧ (∀ (cursor : Nat) (ops : List buffer_op), 4 ≤ cursor → cursor ≤ 10 →
          get_word_bounds ⟨text_cd_my_dir, cursor, ops⟩ = (4, 10))
      ∧ (text_cd_my_dir.drop 4).take (10 - 4) = "my dir".toList :=
  get_word_bounds_quoted ⟨text_cd_my_dir, 6, []⟩ (by decide) (by decide)

/-- C7: for every text and cursor within it with an even number of
double-quotes strictly before the cursor, `get_word_bounds` returns as left
bound the index of the last space before the cursor plus one, or 0 when no
space precedes the cursor (so 0 for a cursor at offset 0), and as right bound
the index of the first space at or after the cursor, or the length of the text
when there is none; for the line `echo %PATH% rest` and every cursor inside
`%PATH%` the span is `(5, 11)`, the substring `%PATH%`. -/
theorem get_word_bounds_unquoted (buffer : line_buffer)
    (hc : buffer.cursor ≤ buffer.text.length)
    (heven : (buffer.text.take buffer.cursor).count dquote % 2 = 0) :
    ((∃ q, last_before buffer.text ' ' buffer.cursor q ∧ (get_word_bounds buffer).1 = q + 1)
        ∨ ((∀ j : Nat, j < buffer.cursor → buffer.text[j]? ≠ some ' ')
            ∧ (get_word_bounds buffer).1 = 0))
      ∧ (buffer.cursor = 0 → (get_word_bounds buffer).1 = 0)
      ∧ first_from buffer.text ' ' buffer.cursor (get_word_bounds buffer).2
      ∧ (∀ (cursor : Nat) (ops : List buffer_op), 5 ≤ cursor → cursor ≤ 11 →
          get_word_bounds ⟨text_echo_path, cursor, ops⟩ = (5, 11))
      ∧ (text_echo_path.drop 5).take (11 - 5) = "%PATH%".toList := by
  have hd : active_delimiter buffer.text buffer.cursor = ' ' := by
    unfold active_delimiter
    rw [if_neg (by omega)]
  refine ⟨?_, ?_, ?_, ?_, by decide⟩
  · have h := last_before_or_none buffer hc
    rwa [hd] at h
  · intro h0
    have h := (get_word_bounds_left buffer hc).1
    omega
  · obtain ⟨h1, _, h3, h4⟩ := get_word_bounds_right buffer hc
    rw [hd] at h3 h4
    exact ⟨h1, h3, h4⟩
  · intro cursor ops h5 h11
    interval_cases cursor <;> rfl

theorem get_word_bounds_unquoted_witness :
    ((∃ q, last_before text_echo_path ' ' 7 q
          ∧ (get_word_bounds ⟨text_echo_path, 7, []⟩).1 = q + 1)
        ∨ ((∀ j : Nat, j < 7 → text_echo_path[j]? ≠ some ' ')
            ∧ (get_word_bounds ⟨text_echo_path, 7, []⟩).1 = 0))
      ∧ ((7 : Nat) = 0 → (get_word_bounds ⟨text_echo_path, 7, []⟩).1 = 0)
      ∧ first_from text_echo_path ' ' 7 (get_word_bounds ⟨text_echo_path, 7, []⟩).2
      ∧ (∀ (cursor : Nat) (ops : List buffer_op), 5 ≤ cursor → cursor ≤ 11 →
          get_word_bounds ⟨text_echo_path, cursor, ops⟩ = (5, 11))
      ∧ (text_echo_path.drop 5).take (11 - 5) = "%PATH%".toList :=
  get_word_bounds_unquoted ⟨text_echo_path, 7, []⟩ (by decide) (by decide)

/-- C8: for every text and cursor within it, the span `(left, right)` that
`get_word_bounds` returns satisfies `0 ≤ left ≤ cursor ≤ right ≤ length`, and
no character of the text in the half-open range from `left` to `right` is the
active delimiter. -/
theorem get_word_bounds_span (buffer : line_buffer)
    (hc : buffer.cursor ≤ buffer.text.length) :
    0 ≤ (get_word_bounds buffer).1
      ∧ (get_word_bounds buffer).1 ≤ buffer.cursor
      ∧ buffer.cursor ≤ (get_word_bounds buffer).2
      ∧ (get_word_bounds buffer).2 ≤ buffer.text.length
      ∧ ∀ j : Nat, (get_word_bounds buffer).1 ≤ j → j < (get_word_bounds buffer).2 →
          buffer.text[j]? ≠ some (active_delimiter buffer.text buffer.cursor) := by
  obtain ⟨l1, l2, _⟩ := get_word_bounds_left buffer hc
  obtain ⟨r1, r2, r3, _⟩ := get_word_bounds_right buffer hc
  refine ⟨Nat.zero_le _, l1, r1, r2, fun j hj1 hj2 => ?_⟩
  by_cases hj : j < buffer.cursor
  · exact l2 j hj1 hj
  · exact r3 j (by omega) hj2

theorem get_word_bounds_span_witness :
    0 ≤ (get_word_bounds ⟨text_cd_my_dir, 6, []⟩).1
      ∧ (get_word_bounds ⟨text_cd_my_dir, 6, []⟩).1 ≤ 6
      ∧ 6 ≤ (get_word_bounds ⟨text_cd_my_dir, 6, []⟩).2
      ∧ (get_word_bounds ⟨text_cd_my_dir, 6, []⟩).2 ≤ text_cd_my_dir.length
      ∧ ∀ j : Nat, (get_word_bounds ⟨text_cd_my_dir, 6, []⟩).1 ≤ j →
          j < (get_word_bounds ⟨text_cd_my_dir, 6, []⟩).2 →
          text_cd_my_dir[j]? ≠ some (active_delimiter text_cd_my_dir 6) :=
  get_word_bounds_span ⟨text_cd_my_dir, 6, []⟩ (by decide)
/-- C9: for every buffer state, when the expansion call of the operating system
fails (returns 0) on the word under the cursor, `expand_env_vars` leaves the
text and the cursor of the buffer unchanged and the buffer receives no call at
all, so no `begin_undo_group` and no `end_undo_group`. -/
theorem expand_env_vars_failure
    (ExpandEnvironmentStrings : List Char → Nat → Nat × List Char) (buffer : line_buffer)
    (hfail : (ExpandEnvironmentStrings (expand_env_vars_in buffer) 1024).1 = 0) :
    (expand_env_vars ExpandEnvironmentStrings buffer).text = buffer.text
      ∧ (expand_env_vars ExpandEnvironmentStrings buffer).cursor = buffer.cursor
      ∧ (expand_env_vars ExpandEnvironmentStrings buffer).ops = buffer.ops := by
  have h : expand_env_vars ExpandEnvironmentStrings buffer = buffer := by
    unfold expand_env_vars
    simp only [hfail, if_true]
  rw [h]
  exact ⟨rfl, rfl, rfl⟩

theorem expand_env_vars_failure_witness :
    (expand_env_vars (fun _ _ => (0, ['x'])) ⟨text_echo_path, 7, []⟩).text = text_echo_path
      ∧ (expand_env_vars (fun _ _ => (0, ['x'])) ⟨text_echo_path, 7, []⟩).cursor = 7
      ∧ (expand_env_vars (fun _ _ => (0, ['x'])) ⟨text_echo_path, 7, []⟩).ops = [] :=
  expand_env_vars_failure (fun _ _ => (0, ['x'])) ⟨text_echo_path, 7, []⟩ rfl

/-- C10: for every buffer state with the cursor within the text and word span
`(left, right)`, when the expansion call of the operating system succeeds with
the result `e`: the string handed to the operating system is the text from
`left` to `right`, and after `expand_env_vars` the text is the text before
`left`, then `e`, then the text from `right` on, with the cursor at
`left + length e`; the text outside the span is unchanged. -/
theorem expand_env_vars_success
    (ExpandEnvironmentStrings : List Char → Nat → Nat × List Char) (buffer : line_buffer)
    (hc : buffer.cursor ≤ buffer.text.length)
    (hok : (ExpandEnvironmentStrings (expand_env_vars_in buffer) 1024).1 ≠ 0) :
    (expand_env_vars_in buffer).length = (get_word_bounds buffer).2 - (get_word_bounds buffer).1
      ∧ buffer.text.take (get_word_bounds buffer).1 ++ expand_env_vars_in buffer
          ++ buffer.text.drop (get_word_bounds buffer).2 = buffer.text
      ∧ (expand_env_vars ExpandEnvironmentStrings buffer).text
          = buffer.text.take (get_word_bounds buffer).1
            ++ (ExpandEnvironmentStrings (expand_env_vars_in buffer) 1024).2
            ++ buffer.text.drop (get_word_bounds buffer).2
      ∧ (expand_env_vars ExpandEnvironmentStrings buffer).cursor
          = (get_word_bounds buffer).1
            + (ExpandEnvironmentStrings (expand_env_vars_in buffer) 1024).2.length
      ∧ (expand_env_vars ExpandEnvironmentStrings buffer).text.take (get_word_bounds buffer).1
          = buffer.text.take (get_word_bounds buffer).1
      ∧ (expand_env_vars ExpandEnvironmentStrings buffer).text.drop
            ((get_word_bounds buffer).1
              + (ExpandEnvironmentStrings (expand_env_vars_in buffer) 1024).2.length)
          = buffer.text.drop (get_word_bounds buffer).2 := by
  obtain ⟨hl, _, _⟩ := get_word_bounds_left buffer hc
  obtain ⟨hr, hlen, _, _⟩ := get_word_bounds_right buffer hc
  have hlr : (get_word_bounds buffer).1 ≤ (get_word_bounds buffer).2 := Nat.le_trans hl hr
  have hll : (get_word_bounds buffer).1 ≤ buffer.text.length := Nat.le_trans hlr hlen
  have htake : (buffer.text.take (get_word_bounds buffer).1).length = (get_word_bounds buffer).1 := by
    simp [hll]
  have hres := remove_set_cursor_insert buffer.begin_undo_group (get_word_bounds buffer).1
    (get_word_bounds buffer).2 (ExpandEnvironmentStrings (expand_env_vars_in buffer) 1024).2
    hlr hlen
  rw [expand_env_vars_of_ne_zero ExpandEnvironmentStrings buffer hok]
  have htext : ∀ b : line_buffer, b.end_undo_group.text = b.text := fun _ => rfl
  have hcur : ∀ b : line_buffer, b.end_undo_group.cursor = b.cursor := fun _ => rfl
  rw [htext, hcur, hres.1, hres.2]
  have hb : buffer.begin_undo_group.text = buffer.text := rfl
  rw [hb]
  refine ⟨?_, ?_, rfl, rfl, ?_, ?_⟩
  · rw [expand_env_vars_in_eq, List.length_take, List.length_drop]
    omega
  · rw [expand_env_vars_in_eq, List.append_assoc]
    have h2 : List.take ((get_word_bounds buffer).2 - (get_word_bounds buffer).1)
          (List.drop (get_word_bounds buffer).1 buffer.text)
        ++ List.drop (get_word_bounds buffer).2 buffer.text
        = List.drop (get_word_bounds buffer).1 buffer.text := by
      have h3 : List.drop (get_word_bounds buffer).2 buffer.text
          = List.drop ((get_word_bounds buffer).2 - (get_word_bounds buffer).1)
              (List.drop (get_word_bounds buffer).1 buffer.text) := by
        rw [List.drop_drop]
        congr 1
        omega
      rw [h3, List.take_append_drop]
    rw [h2, List.take_append_drop]
  · rw [List.append_assoc, List.take_left' htake]
  · rw [List.append_assoc, ← List.append_assoc, List.drop_left']
    rw [List.length_append, htake]

theorem expand_env_vars_success_witness :
    (7 ≤ text_echo_path.length
        ∧ (expand_path_only (expand_env_vars_in ⟨text_echo_path, 7, []⟩) 1024).1 ≠ 0)
      ∧ expand_env_vars_in ⟨text_echo_path, 7, []⟩ = "%PATH%".toList
      ∧ (expand_env_vars expand_path_only ⟨text_echo_path, 7, []⟩).text
          = "echo bin rest".toList
      ∧ (expand_env_vars expand_path_only ⟨text_echo_path, 7, []⟩).cursor = 8 :=
  have h := expand_env_vars_success expand_path_only ⟨text_echo_path, 7, []⟩
    (by decide) (by decide)
  ⟨⟨by decide, by decide⟩, by decide, h.2.2.1.trans (by decide), h.2.2.2.1.trans (by decide)⟩

/-- C11: for every prior text of the buffer (its length an `unsigned int`) and
every cursor, after `up_directory` the text of the buffer is exactly space, c,
d, space, dot, dot, and the result has received the one call `done`, so no
`redraw`. -/
theorem up_directory_text_and_done (result : HostBackend.result) (buffer : line_buffer)
    (h : buffer.text.length ≤ all_ones) :
    (up_directory result buffer).2.text = [' ', 'c', 'd', ' ', '.', '.']
      ∧ (up_directory result buffer).1.calls = result.calls ++ [result_call.done] := by
  refine ⟨?_, rfl⟩
  have h0 : (buffer.begin_undo_group.remove 0 all_ones).text = [] :=
    remove_all_text buffer.begin_undo_group h
  exact insert_into_empty _ _ h0

theorem up_directory_text_and_done_witness :
    text_echo_path.length ≤ all_ones
      ∧ (up_directory ⟨[]⟩ ⟨text_echo_path, 7, []⟩).2.text = [' ', 'c', 'd', ' ', '.', '.']
      ∧ (up_directory ⟨[]⟩ ⟨text_echo_path, 7, []⟩).1.calls = [] ++ [result_call.done] :=
  ⟨by decide, up_directory_text_and_done ⟨[]⟩ ⟨text_echo_path, 7, []⟩ (by decide)⟩

/-- C12: for every buffer state with the cursor within the text,
`insert_dot_dot` inserts at the cursor dot, dot, backslash when the cursor is 0
or the character just before it is a space or a path separator, and backslash,
dot, dot, backslash when the cursor is not 0 and the character just before it
is neither; the text before and after the insertion point is unchanged, and the
buffer receives only `insert` calls, so no undo group is begun. -/
theorem insert_dot_dot_inserts (is_separator : Char → Bool) (buffer : line_buffer)
    (hc : buffer.cursor ≤ buffer.text.length) :
    ((buffer.cursor = 0 ∨ ∃ c, buffer.text[buffer.cursor - 1]? = some c
          ∧ (c = ' ' ∨ is_separator c = true)) →
        (insert_dot_dot is_separator buffer).text
            = buffer.text.take buffer.cursor ++ ['.', '.', backslash]
              ++ buffer.text.drop buffer.cursor
          ∧ (insert_dot_dot is_separator buffer).ops
            = buffer.ops ++ [buffer_op.insert ['.', '.', backslash]])
      ∧ ((buffer.cursor ≠ 0 ∧ ∃ c, buffer.text[buffer.cursor - 1]? = some c
          ∧ c ≠ ' ' ∧ is_separator c = false) →
        (insert_dot_dot is_separator buffer).text
            = buffer.text.take buffer.cursor ++ [backslash, '.', '.', backslash]
              ++ buffer.text.drop buffer.cursor
          ∧ (insert_dot_dot is_separator buffer).ops
            = buffer.ops ++ [buffer_op.insert [backslash],
                buffer_op.insert ['.', '.', backslash]])
      ∧ buffer_op.begin_undo_group ∉ (insert_dot_dot is_separator buffer).ops.drop
          buffer.ops.length := by
  have hplain : (buffer.cursor = 0 ∨ char_at buffer.text (buffer.cursor - 1) = ' '
      ∨ is_separator (char_at buffer.text (buffer.cursor - 1)) = true) →
      (insert_dot_dot is_separator buffer).text
            = buffer.text.take buffer.cursor ++ ['.', '.', backslash]
              ++ buffer.text.drop buffer.cursor
          ∧ (insert_dot_dot is_separator buffer).ops
            = buffer.ops ++ [buffer_op.insert ['.', '.', backslash]] := by
    intro h
    rw [insert_dot_dot_plain is_separator buffer h]
    exact ⟨rfl, rfl⟩
  have hsep : buffer.cursor ≠ 0 → char_at buffer.text (buffer.cursor - 1) ≠ ' ' →
      is_separator (char_at buffer.text (buffer.cursor - 1)) = false →
      (insert_dot_dot is_separator buffer).text
            = buffer.text.take buffer.cursor ++ [backslash, '.', '.', backslash]
              ++ buffer.text.drop buffer.cursor
          ∧ (insert_dot_dot is_separator buffer).ops
            = buffer.ops ++ [buffer_op.insert [backslash],
                buffer_op.insert ['.', '.', backslash]] := by
    intro h0 h1 h2
    rw [insert_dot_dot_separated is_separator buffer h0 h1 h2]
    refine ⟨insert_insert_text buffer _ _ hc, ?_⟩
    simp [line_buffer.insert]
  refine ⟨?_, ?_, ?_⟩
  · rintro (h0 | ⟨c, hget, hcase⟩)
    · exact hplain (Or.inl h0)
    · by_cases h0 : buffer.cursor = 0
      · exact hplain (Or.inl h0)
      · have hlt : buffer.cursor - 1 < buffer.text.length := by omega
        have hch : char_at buffer.text (buffer.cursor - 1) = c :=
          (char_at_eq_iff buffer.text _ c hlt).2 hget
        rw [← hch] at hcase
        exact hplain (Or.inr hcase)
  · rintro ⟨h0, c, hget, hne, hsepc⟩
    have hlt : buffer.cursor - 1 < buffer.text.length := by omega
    have hch : char_at buffer.text (buffer.cursor - 1) = c :=
      (char_at_eq_iff buffer.text _ c hlt).2 hget
    rw [← hch] at hne hsepc
    exact hsep h0 hne hsepc
  · by_cases h : buffer.cursor = 0 ∨ char_at buffer.text (buffer.cursor - 1) = ' '
        ∨ is_separator (char_at buffer.text (buffer.cursor - 1)) = true
    · rw [(hplain h).2]
      simp
    · have h0 : buffer.cursor ≠ 0 := fun hh => h (Or.inl hh)
      have h1 : char_at buffer.text (buffer.cursor - 1) ≠ ' ' :=
        fun hh => h (Or.inr (Or.inl hh))
      have h2 : is_separator (char_at buffer.text (buffer.cursor - 1)) = false := by
        cases hs : is_separator (char_at buffer.text (buffer.cursor - 1)) with
        | true => exact absurd (Or.inr (Or.inr hs)) h
        | false => rfl
      rw [(hsep h0 h1 h2).2]
      simp

theorem insert_dot_dot_inserts_witness :
    (6 ≤ text_cd_foo.length
        ∧ (insert_dot_dot is_separator_example ⟨text_cd_foo, 6, []⟩).text
          = text_cd_foo ++ [backslash, '.', '.', backslash])
      ∧ (3 ≤ text_cd_foo.length
        ∧ (insert_dot_dot is_separator_example ⟨text_cd_foo, 3, []⟩).text
          = "cd ".toList ++ ['.', '.', backslash] ++ "foo".toList) :=
  ⟨⟨by decide,
      ((insert_dot_dot_inserts is_separator_example ⟨text_cd_foo, 6, []⟩ (by decide)).2.1
        ⟨by decide, 'o', by decide, by decide, by decide⟩).1.trans (by decide)⟩,
    ⟨by decide,
      ((insert_dot_dot_inserts is_separator_example ⟨text_cd_foo, 3, []⟩ (by decide)).1
        (Or.inr ⟨' ', by decide, Or.inl rfl⟩)).1.trans (by decide)⟩⟩

/-- C13: for every buffer state (the length of the text an `unsigned int`),
`ctrl_c` leaves the text of the buffer empty, writes once to the terminal, the
4 bytes line feed, caret, C, line feed, and the result receives the one call
`redraw`, so no `done`. -/
theorem ctrl_c_clears_and_redraws (result : HostBackend.result)
    (context : HostBackend.context) (h : context.buffer.text.length ≤ all_ones) :
    (ctrl_c result context).2.buffer.text = []
      ∧ (ctrl_c result context).2.terminal.written
          = context.terminal.written ++ [['\n', '^', 'C', '\n']]
      ∧ (ctrl_c result context).1.calls = result.calls ++ [result_call.redraw] :=
  ⟨remove_all_text context.buffer h, rfl, rfl⟩

theorem ctrl_c_clears_and_redraws_witness :
    text_echo_path.length ≤ all_ones
      ∧ (ctrl_c ⟨[]⟩ ⟨⟨text_echo_path, 7, []⟩, ⟨[]⟩⟩).2.buffer.text = []
      ∧ (ctrl_c ⟨[]⟩ ⟨⟨text_echo_path, 7, []⟩, ⟨[]⟩⟩).2.terminal.written
          = [] ++ [['\n', '^', 'C', '\n']]
      ∧ (ctrl_c ⟨[]⟩ ⟨⟨text_echo_path, 7, []⟩, ⟨[]⟩⟩).1.calls = [] ++ [result_call.redraw] :=
  ⟨by decide, ctrl_c_clears_and_redraws ⟨[]⟩ ⟨⟨text_echo_path, 7, []⟩, ⟨[]⟩⟩ (by decide)⟩

/-- C14, the code at the failing input: when `GetCurrentDirectory` fails
(returns 0, whatever it leaves in the buffer) and the allocation and
`OpenClipboard` succeed, `copy_cwd` is no no-op: the clipboard receives the
cleaned content of the buffer followed by a backslash.  When the length
returned is 270 or more the clipboard receives nothing. -/
theorem copy_cwd_failed_query_copies (left : List Char) (path_clean : List Char → List Char)
    (buffer : line_buffer) (clipboard : List clipboard_call) (length : Nat) :
    copy_cwd (fun _ => (0, left)) path_clean true true buffer clipboard
        = clipboard ++ [clipboard_call.CF_TEXT none,
            clipboard_call.CF_UNICODETEXT (some (path_clean (left ++ [backslash])))]
      ∧ copy_cwd (fun _ => (0, [])) (fun p => p) true true ⟨[], 0, []⟩ []
        = [clipboard_call.CF_TEXT none, clipboard_call.CF_UNICODETEXT (some [backslash])]
      ∧ copy_cwd (fun _ => (270 + length, left)) path_clean true true buffer clipboard
        = clipboard := by
  refine ⟨?_, by decide, ?_⟩
  · simp [copy_cwd, copy_impl, str_concat]
  · simp [copy_cwd]

/-- C15, the code at the failing input: when `ExpandEnvironmentStrings` returns
a count greater than 1024, the size of the destination, `expand_env_vars` does
not refuse the operation: it removes the word and inserts whatever the
destination holds; on the line `echo %PATH% rest` with the cursor at 7 and a
destination left holding `C:` the text becomes `echo C: rest`. -/
theorem expand_env_vars_overflow_edits (excess : Nat) (out : List Char)
    (buffer : line_buffer) :
    expand_env_vars (fun _ _ => (1025 + excess, out)) buffer
        = ((((buffer.begin_undo_group).remove (get_word_bounds buffer).1
            (get_word_bounds buffer).2).set_cursor (get_word_bounds buffer).1).insert
            out).end_undo_group
      ∧ (expand_env_vars (fun _ _ => (1500, "C:".toList)) ⟨text_echo_path, 7, []⟩).text
        = "echo C: rest".toList
      ∧ (expand_env_vars (fun _ _ => (1500, "C:".toList)) ⟨text_echo_path, 7, []⟩).text
        ≠ text_echo_path := by
  refine ⟨?_, by decide, by decide⟩
  exact expand_env_vars_of_ne_zero (fun _ _ => (1025 + excess, out)) buffer (by simp)

/-- C17: for every action identifier, bound or not, and every state, one call
of `on_input` gives the result at most one call: `redraw` alone for the
interrupt, `done` alone for go-up-directory, and none for every other
identifier. -/
theorem on_input_signals (os : host_os) (id : Nat) (s : host_state) :
    (on_input os id s).result.calls
        = s.result.calls ++
          (if id = bind_id_ctrlc then [result_call.redraw]
            else if id = bind_id_up_dir then [result_call.done] else [])
      ∧ (∃ issued, (on_input os id s).result.calls = s.result.calls ++ issued
          ∧ issued.length ≤ 1
          ∧ ¬ (result_call.redraw ∈ issued ∧ result_call.done ∈ issued))
      ∧ (on_input os bind_id_ctrlc s).result.calls = s.result.calls ++ [result_call.redraw]
      ∧ (on_input os bind_id_up_dir s).result.calls = s.result.calls ++ [result_call.done]
      ∧ (on_input os bind_id_paste s).result.calls = s.result.calls
      ∧ (on_input os bind_id_copy_line s).result.calls = s.result.calls
      ∧ (on_input os bind_id_copy_cwd s).result.calls = s.result.calls
      ∧ (on_input os bind_id_expand_env s).result.calls = s.result.calls
      ∧ (on_input os bind_id_dotdot s).result.calls = s.result.calls := by
  have hall : ∀ i : Nat, (on_input os i s).result.calls
      = s.result.calls ++
        (if i = bind_id_ctrlc then [result_call.redraw]
          else if i = bind_id_up_dir then [result_call.done] else []) := by
    intro i
    unfold on_input
    split_ifs <;>
      simp_all [ctrl_c, up_directory, result.redraw, result.done, bind_id_paste, bind_id_ctrlc,
        bind_id_copy_line, bind_id_copy_cwd, bind_id_up_dir, bind_id_expand_env, bind_id_dotdot]
  refine ⟨hall id, ?_, ?_, ?_, ?_, ?_, ?_, ?_, ?_⟩
  · refine ⟨_, hall id, ?_, ?_⟩
    · split_ifs <;> simp
    · split_ifs <;> simp
  all_goals rw [hall]; simp [bind_id_paste, bind_id_ctrlc, bind_id_copy_line, bind_id_copy_cwd,
    bind_id_up_dir, bind_id_expand_env, bind_id_dotdot]

/-- C19: `strip_crlf` is idempotent: for every input string and every policy
value, applying it twice under the same policy gives the same string as
applying it once. -/
theorem strip_crlf_idempotent (setting : Int) (line : List Char) :
    strip_crlf setting (strip_crlf setting line) = strip_crlf setting line := by
  unfold strip_crlf
  by_cases h : setting ≤ 0
  · simp [h]
  · simp only [h, if_false]
    exact strip_crlf_loop_of_no_crlf setting false _
      (strip_crlf_loop_no_crlf setting false line)

/-- C20: the word span is stable under moving the cursor within it: for every
text and cursor within it with span `(left, right)`, when no character of the
text from `left` to `right` is a double-quote, `get_word_bounds` returns the
same span for every cursor from `left` to `right`. -/
theorem get_word_bounds_stable (buffer : line_buffer)
    (hc : buffer.cursor ≤ buffer.text.length)
    (hq : ∀ j : Nat, (get_word_bounds buffer).1 ≤ j → j < (get_word_bounds buffer).2 →
      buffer.text[j]? ≠ some dquote)
    (cursor : Nat) (hl : (get_word_bounds buffer).1 ≤ cursor)
    (hr : cursor ≤ (get_word_bounds buffer).2) :
    get_word_bounds ⟨buffer.text, cursor, buffer.ops⟩ = get_word_bounds buffer := by
  obtain ⟨l1, l2, l3⟩ := get_word_bounds_left buffer hc
  obtain ⟨r1, r2, r3, r4⟩ := get_word_bounds_right buffer hc
  have hcur : cursor ≤ buffer.text.length := Nat.le_trans hr r2
  have hd : active_delimiter buffer.text cursor
      = active_delimiter buffer.text buffer.cursor := by
    rcases Nat.le_total cursor buffer.cursor with h | h
    · exact (active_delimiter_eq_of_none_between buffer.text cursor buffer.cursor h
        (fun j hj1 hj2 => hq j (by omega) (by omega))).symm
    · exact active_delimiter_eq_of_none_between buffer.text buffer.cursor cursor h
        (fun j hj1 hj2 => hq j (by omega) (by omega))
  have hno : ∀ j : Nat, (get_word_bounds buffer).1 ≤ j → j < (get_word_bounds buffer).2 →
      buffer.text[j]? ≠ some (active_delimiter buffer.text buffer.cursor) := by
    intro j hj1 hj2
    by_cases hj : j < buffer.cursor
    · exact l2 j hj1 hj
    · exact r3 j (by omega) hj2
  rw [get_word_bounds_eq ⟨buffer.text, cursor, buffer.ops⟩ hcur]
  simp only [hd]
  rw [scan_left_unique buffer.text _ cursor (get_word_bounds buffer).1 hcur hl
      (fun j hj1 hj2 => hno j hj1 (by omega)) l3,
    right_bound_unique buffer.text _ cursor (get_word_bounds buffer).2 hcur hr
      (fun j hj1 hj2 => hno j (by omega) hj2) r4]

theorem get_word_bounds_stable_witness :
    (7 ≤ text_echo_path.length
        ∧ (get_word_bounds ⟨text_echo_path, 7, []⟩).1 ≤ 10
        ∧ 10 ≤ (get_word_bounds ⟨text_echo_path, 7, []⟩).2)
      ∧ get_word_bounds ⟨text_echo_path, 10, []⟩ = get_word_bounds ⟨text_echo_path, 7, []⟩ :=
  ⟨⟨by decide, by decide, by decide⟩,
    get_word_bounds_stable ⟨text_echo_path, 7, []⟩ (by decide)
      (by
        intro j hj1 hj2
        have h1 : 5 ≤ j := hj1
        have h2 : j < 11 := hj2
        interval_cases j <;> decide)
      10 (by decide) (by decide)⟩

/-- C16: for every buffer state, the buffer calls issued by `up_directory`, and
by `expand_env_vars` when the expansion succeeds, are one undo group: exactly
one `begin_undo_group` and exactly one `end_undo_group`, the first before every
mutation and the second after every mutation, with no group inside; and for
every action identifier, an action dispatched by `on_input` with no group open
ends with no group open. -/
theorem undo_groups_paired (os : host_os) (id : Nat) (s : host_state)
    (result : HostBackend.result) (buffer : line_buffer) :
    (∃ trace, (up_directory result buffer).2.ops = buffer.ops ++ trace
        ∧ one_undo_group trace)
      ∧ ((os.ExpandEnvironmentStrings (expand_env_vars_in buffer) 1024).1 ≠ 0 →
          ∃ trace, (expand_env_vars os.ExpandEnvironmentStrings buffer).ops
              = buffer.ops ++ trace
            ∧ one_undo_group trace)
      ∧ (open_groups (some 0) s.context.buffer.ops = some 0 →
          open_groups (some 0) (on_input os id s).context.buffer.ops = some 0) := by
  refine ⟨⟨_, up_directory_ops result buffer, ?_⟩, fun hok =>
    ⟨_, expand_env_vars_ops os.ExpandEnvironmentStrings buffer hok, ?_⟩, fun h0 => ?_⟩
  · exact one_undo_group_of_mutations
      [buffer_op.remove 0 all_ones, buffer_op.insert [' ', 'c', 'd', ' ', '.', '.']]
      (by simp)
  · exact one_undo_group_of_mutations
      [buffer_op.remove (get_word_bounds buffer).1 (get_word_bounds buffer).2,
        buffer_op.set_cursor (get_word_bounds buffer).1,
        buffer_op.insert (os.ExpandEnvironmentStrings (expand_env_vars_in buffer) 1024).2]
      (by simp)
  · obtain ⟨trace, htrace, hopen⟩ := on_input_trace os id s
    rw [htrace, open_groups_append, h0, hopen]

theorem undo_groups_paired_witness :
    ((os_example.ExpandEnvironmentStrings
          (expand_env_vars_in state_example.context.buffer) 1024).1 ≠ 0
        ∧ ∃ trace, (expand_env_vars os_example.ExpandEnvironmentStrings
              state_example.context.buffer).ops
            = state_example.context.buffer.ops ++ trace
          ∧ one_undo_group trace)
      ∧ (open_groups (some 0) state_example.context.buffer.ops = some 0
        ∧ open_groups (some 0)
            (on_input os_example bind_id_expand_env state_example).context.buffer.ops
          = some 0) :=
  ⟨⟨by decide,
      (undo_groups_paired os_example bind_id_expand_env state_example ⟨[]⟩
        state_example.context.buffer).2.1 (by decide)⟩,
    ⟨by decide,
      (undo_groups_paired os_example bind_id_expand_env state_example ⟨[]⟩
        state_example.context.buffer).2.2 (by decide)⟩⟩

/-- C18, as stated, fails: on the line `echo %PATH% rest` the buffer calls of
`ctrl_c` are the one call `remove(0, ~0u)`, with no `begin_undo_group` before it
and no `end_undo_group` after it. -/
theorem ctrl_c_no_undo_group :
    (ctrl_c ⟨[]⟩ ⟨⟨text_echo_path, 7, []⟩, ⟨[]⟩⟩).2.buffer.ops
        = [buffer_op.remove 0 all_ones]
      ∧ buffer_op.begin_undo_group ∉ (ctrl_c ⟨[]⟩ ⟨⟨text_echo_path, 7, []⟩, ⟨[]⟩⟩).2.buffer.ops
      ∧ buffer_op.end_undo_group ∉ (ctrl_c ⟨[]⟩ ⟨⟨text_echo_path, 7, []⟩, ⟨[]⟩⟩).2.buffer.ops
      ∧ ¬ one_undo_group (ctrl_c ⟨[]⟩ ⟨⟨text_echo_path, 7, []⟩, ⟨[]⟩⟩).2.buffer.ops := by
  refine ⟨rfl, by decide, by decide, ?_⟩
  intro h
  exact absurd h.1 (by decide)

/-- C18, amended: `ctrl_c` performs its full-line removal outside any undo
group: for every state the buffer calls it issues are the one call
`remove(0, ~0u)`, so no `begin_undo_group` and no `end_undo_group`; of the
handlers that replace the full line, `up_directory` alone issues its calls as
one undo group. -/
theorem ctrl_c_single_remove (result : HostBackend.result) (context : HostBackend.context)
    (buffer : line_buffer) :
    (ctrl_c result context).2.buffer.ops
        = context.buffer.ops ++ [buffer_op.remove 0 all_ones]
      ∧ buffer_op.begin_undo_group ∉ [buffer_op.remove 0 all_ones]
      ∧ buffer_op.end_undo_group ∉ [buffer_op.remove 0 all_ones]
      ∧ (up_directory result buffer).2.ops
        = buffer.ops ++ ([buffer_op.begin_undo_group]
            ++ [buffer_op.remove 0 all_ones, buffer_op.insert [' ', 'c', 'd', ' ', '.', '.']]
            ++ [buffer_op.end_undo_group]) := by
  refine ⟨rfl, by decide, by decide, ?_⟩
  rw [up_directory_ops]
  rfl

end HostBackend
